import Mathlib

/-!
Verification of the presentation-behavior layer in `js/script.js`
(sticky header, mobile menu toggle, smooth scroll, animated counters,
contact-form validation with simulated send).

Each JS handler is shallowly embedded as a pure Lean function over an
explicit state record; values read from the DOM (input values, attributes,
element presence) are function arguments, and DOM side effects (classes,
inserted nodes, focus calls, scheduled timers) are returned in the result.
-/

set_option autoImplicit false

namespace Script

/-! ## JS string primitives

`String.prototype.trim` and the regex class `\s` both use the ECMAScript
WhiteSpace ∪ LineTerminator set: TAB, LF, VT, FF, CR, SP, NBSP, plus the
Unicode `Zs` code points, LS, PS and ZWNBSP. -/

/-- The character set matched by `\s` in a JS regex (also the set removed by
`String.prototype.trim`). -/
def isJsSpace (c : Char) : Bool :=
  c.val = 0x9 || c.val = 0xa || c.val = 0xb || c.val = 0xc || c.val = 0xd ||
  c.val = 0x20 || c.val = 0xa0 || c.val = 0x1680 ||
  (0x2000 ≤ c.val && c.val ≤ 0x200a) ||
  c.val = 0x2028 || c.val = 0x2029 || c.val = 0x202f || c.val = 0x205f ||
  c.val = 0x3000 || c.val = 0xfeff

/-- `String.prototype.trim`: strip leading and trailing JS whitespace. -/
def jsTrimList (cs : List Char) : List Char :=
  ((cs.dropWhile isJsSpace).reverse.dropWhile isJsSpace).reverse

/-- `String.prototype.trim` on a Lean `String`. -/
def jsTrim (s : String) : String := ⟨jsTrimList s.data⟩

/-! ## The email regex

`script.js` line 192: `const emailRe = /^[^\s@]+@[^\s@]+\.[^\s@]+$/;`

The regex is anchored at both ends, so `emailRe.test(s)` holds iff `s`
decomposes as `a ++ "@" ++ b ++ "." ++ c` where `a`, `b`, `c` are nonempty
strings of characters that are neither JS whitespace nor `'@'`.  The
matcher below searches all split points, which is exactly the backtracking
semantics of the pattern. -/

/-- A character admitted by the regex class `[^\s@]`. -/
def okChar (c : Char) : Bool := !isJsSpace c && c ≠ '@'

/-- `[^\s@]+`: a nonempty run of admitted characters. -/
def plusOk (cs : List Char) : Bool := !cs.isEmpty && cs.all okChar

/-- All ways of writing a list as `xs ++ ys`. -/
def splits : List Char → List (List Char × List Char)
  | [] => [([], [])]
  | c :: cs => ([], c :: cs) :: (splits cs).map (fun p => (c :: p.1, p.2))

/-- Matches `\.[^\s@]+$`: a literal dot, then a nonempty admitted run. -/
def dotThen : List Char → Bool
  | c :: rest => c = '.' && plusOk rest
  | [] => false

/-- Matches `[^\s@]+\.[^\s@]+$` against the part of the input after `@`. -/
def domainMatch (cs : List Char) : Bool :=
  (splits cs).any fun p => plusOk p.1 && dotThen p.2

/-- Matches `@[^\s@]+\.[^\s@]+$`: a literal `@`, then the domain part. -/
def atThen : List Char → Bool
  | c :: rest => c = '@' && domainMatch rest
  | [] => false

/-- `emailRe.test`: the anchored pattern `^[^\s@]+@[^\s@]+\.[^\s@]+$`. -/
def emailReTest (s : String) : Bool :=
  (splits s.data).any fun p => plusOk p.1 && atThen p.2

/-- The email validator on the already-trimmed value (`script.js` line 193:
the field is in error iff `!emailVal || !emailRe.test(emailVal)`; this is
the accepting side of that test; `!emailVal` is the empty-string check). -/
def emailAccepts (t : String) : Bool := !t.data.isEmpty && emailReTest t

/-! Spec-side email predicates (written from the spec's words, to be compared
with `emailAccepts`). -/

/-- The part of a string after its first `'@'` (empty if there is none). -/
def afterAt (cs : List Char) : List Char := (cs.dropWhile (· ≠ '@')).tail

/-- Written from the claim's words: accepted iff non-empty, exactly one `'@'`,
at least one `'.'` somewhere after the `'@'`, and no whitespace anywhere. -/
def specEmailClaim (s : String) : Bool :=
  let cs := s.data
  !cs.isEmpty && cs.count '@' = 1 && (afterAt cs).contains '.' &&
    cs.all (fun c => !isJsSpace c)

/-- `'.'` occurs at a position other than the last one. -/
def hasDotNotLast : List Char → Bool
  | [] => false
  | [_] => false
  | c :: rest => c = '.' || hasDotNotLast rest

/-- The list has a `'.'` that is neither its first nor its last element. -/
def hasInteriorDot : List Char → Bool
  | [] => false
  | _ :: rest => hasDotNotLast rest

/-- The amended acceptance condition: no whitespace, exactly one `'@'` which
is not the first character, and the part after the `'@'` contains a `'.'`
that is neither the first nor the last character of that part. -/
def specEmailAmended (s : String) : Bool :=
  let cs := s.data
  cs.all (fun c => !isJsSpace c) && cs.count '@' = 1 &&
    cs.head? ≠ some '@' && hasInteriorDot (afterAt cs)


/-! ## Sticky header (`script.js` lines 17-30)

`onScroll` adds `is-sticky` to the header when `window.scrollY > 48` and
removes it otherwise; with no `.site-header` element it does nothing.
The header is modelled as its `is-sticky` flag (`Option Bool`: `none` when
the element is absent), the scroll offset as a rational. -/

/-- `STICKY_OFFSET = 48` (px scrolled before adding the sticky class). -/
def STICKY_OFFSET : ℚ := 48

/-- One run of `onScroll`: new `is-sticky` state of the header. -/
def onScroll (header : Option Bool) (scrollY : ℚ) : Option Bool :=
  match header with
  | none => none
  | some _ => some (decide (scrollY > STICKY_OFFSET))

/-! ## Mobile menu (`script.js` lines 36-66)

State: the `active` class on `.main-nav`, the `aria-expanded` attribute on
`.menu-toggle`, and the toggle's `innerText` glyph. -/

structure MenuState where
  active : Bool
  ariaExpanded : String
  glyph : String
deriving DecidableEq, Repr

/-- The initial closed state assumed by the markup. -/
def closedMenu : MenuState := ⟨false, "false", "☰"⟩

inductive MenuEvent where
  /-- click on `.menu-toggle` -/
  | toggleClick
  /-- click on a `.main-nav a` link -/
  | navLinkClick
  /-- `Escape` keydown -/
  | escapeKey
deriving DecidableEq, Repr

/-- The three `script.js` menu handlers as one step function. -/
def menuStep (s : MenuState) (e : MenuEvent) : MenuState :=
  match e with
  | .toggleClick =>
    let expanded := s.ariaExpanded = "true"
    let newActive := !s.active
    { active := newActive
      ariaExpanded := if !expanded then "true" else "false"
      glyph := if newActive then "✕" else "☰" }
  | .navLinkClick =>
    if s.active then ⟨false, "false", "☰"⟩ else s
  | .escapeKey =>
    -- also calls `menuToggle.focus()`, which does not touch this state
    if s.active then ⟨false, "false", "☰"⟩ else s

/-- The three redundant copies of the open/closed bit agree. -/
def menuSync (s : MenuState) : Prop :=
  (s.active = true ↔ s.ariaExpanded = "true") ∧
  (s.active = true ↔ s.glyph = "✕")

/-! ## Smooth scroll (`script.js` lines 71-100)

The handler is attached to `a[href^="#"]` links whose href is present,
not bare `"#"`, and not opted out via `data-no-smooth`.  On click it
resolves the target id; if absent it returns (native behavior), else it
prevents default and scrolls to
`max(0, targetTop - headerHeight - 18)`. -/

structure AnchorLink where
  /-- `getAttribute('href')`; `none` models a null attribute. -/
  href : Option String
  /-- `link.dataset.noSmooth !== undefined` -/
  noSmooth : Bool
deriving Repr

/-- The guard on `script.js` line 82 combined with the `a[href^="#"]`
selector: the click listener is installed iff this holds. -/
def smoothScrollAttached (l : AnchorLink) : Bool :=
  match l.href with
  | none => false
  | some h =>
    (match h.data with
     | '#' :: _ => true
     | _ => false) && h ≠ "#" && !l.noSmooth

/-- `getHeaderOffset()`: the header's current height, `0` with no header. -/
def getHeaderOffset (headerHeight : Option ℚ) : ℚ :=
  match headerHeight with
  | none => 0
  | some h => h

inductive ClickResult where
  /-- the handler returned without `preventDefault` (or was never attached) -/
  | native
  /-- `window.scrollTo({top := t, behavior := smooth})` after `preventDefault` -/
  | intercepted (top : ℚ)
deriving DecidableEq, Repr

/-- A click on an anchor link.  `targetTop?` is
`targetEl.getBoundingClientRect().top + window.scrollY` (the target's
document-relative top) when `document.getElementById` finds the target,
`none` otherwise. -/
def anchorClick (l : AnchorLink) (headerHeight : Option ℚ)
    (targetTop? : Option ℚ) : ClickResult :=
  if smoothScrollAttached l then
    match targetTop? with
    | none => .native
    | some top => .intercepted (max 0 (top - getHeaderOffset headerHeight - 18))
  else .native

/-! ## Animated counters (`script.js` lines 109-143)

A counter's target is read from `data-target`, falling back to the
element's text, falling back to `'0'`; the string is sanitized by
`replace(/[^0-9.\-]/g, '')`, `isFloat` records whether the sanitized
string contains `'.'`, and `parseFloat(numericStr) || 0` yields the
numeric target.  When the animation completes (`t = 1`, line 134) the
element shows `target.toFixed(2)` if `isFloat` and
`Math.floor(target).toLocaleString()` otherwise.  Numbers are modelled
as exact rationals; `toLocaleString` is modelled with the `en-US`
grouping of the spec's examples. -/

/-- `String(raw).replace(/[^0-9.\-]/g, '')`: keep digits, `'.'` and `'-'`. -/
def sanitizeTarget (s : String) : String :=
  ⟨s.data.filter (fun c => c.isDigit || c = '.' || c = '-')⟩

/-- Numeric value of a digit character. -/
def digitVal (c : Char) : ℕ := c.toNat - '0'.toNat

/-- Decimal value of a digit run. -/
def digitsToNat (ds : List Char) : ℕ :=
  ds.foldl (fun a c => 10 * a + digitVal c) 0

/-- A JS number that arose from parsing a decimal literal, kept exact:
value `m / 10 ^ s`. -/
structure DecNum where
  m : ℤ
  s : ℕ
deriving DecidableEq, Repr

/-- The rational value of a `DecNum`. -/
def DecNum.toRat (d : DecNum) : ℚ := (d.m : ℚ) / 10 ^ d.s

/-- Longest-prefix unsigned decimal literal, JS `StrUnsignedDecimalLiteral`
restricted to the sanitized alphabet (digits, `'.'`, `'-'`; an exponent
part cannot occur since letters were removed).  `none` models `NaN`. -/
def parseDecimal (cs : List Char) : Option DecNum :=
  let ds := cs.takeWhile Char.isDigit
  let rest := cs.dropWhile Char.isDigit
  if ds.isEmpty then
    match rest with
    | '.' :: cs2 =>
      let fs := cs2.takeWhile Char.isDigit
      if fs.isEmpty then none else some ⟨digitsToNat fs, fs.length⟩
    | _ => none
  else
    match rest with
    | '.' :: cs2 =>
      let fs := cs2.takeWhile Char.isDigit
      some ⟨digitsToNat ds * 10 ^ fs.length + digitsToNat fs, fs.length⟩
    | _ => some ⟨digitsToNat ds, 0⟩

/-- JS `parseFloat` on a sanitized target string (no leading whitespace is
possible; an optional sign, then a decimal literal, longest prefix). -/
def parseFloatSan (cs : List Char) : Option DecNum :=
  match cs with
  | '-' :: cs2 => (parseDecimal cs2).map (fun d => ⟨-d.m, d.s⟩)
  | '+' :: cs2 => parseDecimal cs2
  | _ => parseDecimal cs

/-- `el.getAttribute('data-target') || el.textContent || '0'` (both `null`
and `''` are falsy). -/
def counterRaw (attr? : Option String) (text : String) : String :=
  match attr? with
  | some a => if a.isEmpty then (if text.isEmpty then "0" else text) else a
  | none => if text.isEmpty then "0" else text

/-- `parseFloat(numericStr) || 0`: `NaN` becomes `0` (a parsed `0` is also
falsy, but `0 || 0` is again `0`). -/
def counterTargetDec (attr? : Option String) (text : String) : DecNum :=
  (parseFloatSan (sanitizeTarget (counterRaw attr? text)).data).getD ⟨0, 0⟩

/-- The numeric target of the counter, as a rational. -/
def counterTarget (attr? : Option String) (text : String) : ℚ :=
  (counterTargetDec attr? text).toRat

/-- Decimal digits of a natural number, most significant first. -/
def natDigitsAux : ℕ → ℕ → List Char
  | 0, _ => []
  | fuel + 1, n =>
    if n < 10 then [Char.ofNat ('0'.toNat + n)]
    else natDigitsAux fuel (n / 10) ++ [Char.ofNat ('0'.toNat + n % 10)]

/-- Decimal digits of a natural number, most significant first. -/
def natDigits (n : ℕ) : List Char := natDigitsAux (n + 1) n

/-- Insert `','` every three digits, working on the reversed digit list. -/
def groupAux : List Char → List Char
  | d1 :: d2 :: d3 :: d4 :: rest => d1 :: d2 :: d3 :: ',' :: groupAux (d4 :: rest)
  | l => l

/-- `Number.prototype.toLocaleString` on an integer, `en-US` grouping. -/
def jsLocaleInt (n : ℤ) : String :=
  ⟨(if n < 0 then ['-'] else []) ++ (groupAux (natDigits n.natAbs).reverse).reverse⟩

/-- Left-pad a digit list with `'0'` to length at least `k`. -/
def padZeros (ds : List Char) (k : ℕ) : List Char :=
  List.replicate (k - ds.length) '0' ++ ds

/-- `Math.floor` on an exact decimal: `⌊m / 10 ^ s⌋`. -/
def DecNum.floorInt (d : DecNum) : ℤ := Int.fdiv d.m (10 ^ d.s)

/-- `toFixed(2)` for a nonnegative value: the integer `n` minimising
`|n / 100 - q|`, ties to the larger `n` (ECMA-262), printed with two
fractional digits.  For `q = m / 10 ^ s` that integer is
`⌊100 q + 1 / 2⌋ = (200 m + 10 ^ s) divfloor (2 · 10 ^ s)`. -/
def toFixed2Nonneg (d : DecNum) : String :=
  let n : ℕ := (Int.fdiv (200 * d.m + 10 ^ d.s) (2 * 10 ^ d.s)).toNat
  let ds := padZeros (natDigits n) 3
  ⟨ds.take (ds.length - 2) ++ '.' :: ds.drop (ds.length - 2)⟩

/-- `Number.prototype.toFixed(2)`: ECMA-262 emits a `'-'` sign first and
formats the absolute value. -/
def jsToFixed2 (d : DecNum) : String :=
  if d.m < 0 then "-" ++ toFixed2Nonneg ⟨-d.m, d.s⟩ else toFixed2Nonneg d

/-- Whether the sanitized target string contains a decimal point
(`numericStr.includes('.')`). -/
def counterIsFloat (attr? : Option String) (text : String) : Bool :=
  (sanitizeTarget (counterRaw attr? text)).data.contains '.'

/-- The text shown when the counter animation completes (`script.js`
line 134): `isFloat ? target.toFixed(2) :
Math.floor(target).toLocaleString()`. -/
def counterFinalText (attr? : Option String) (text : String) : String :=
  if counterIsFloat attr? text then jsToFixed2 (counterTargetDec attr? text)
  else jsLocaleInt (counterTargetDec attr? text).floorInt


/-! ## Contact form (`script.js` lines 155-257)

The form is modelled as: the values of the three controls (`none` when the
element is missing from the markup), the submit button (label + disabled
flag, `none` when missing), the list of `.form-alert` banner nodes (head =
top of the form), the list of rendered `.field-error` nodes, and the set of
fields carrying the `input-error` class.  The submit handler returns the
new form state together with its focus request and the delay of the
`setTimeout` it schedules, if any. -/

inductive FieldId where
  | name
  | email
  | message
deriving DecidableEq, Repr

structure SubmitButton where
  label : String
  disabled : Bool
deriving DecidableEq, Repr

inductive BannerKind where
  | success
  | error
deriving DecidableEq, Repr

structure Banner where
  kind : BannerKind
  text : String
deriving DecidableEq, Repr

structure ContactForm where
  nameVal : Option String
  emailVal : Option String
  messageVal : Option String
  submitBtn : Option SubmitButton
  banners : List Banner
  inlineErrors : List (FieldId × String)
  errorClasses : List FieldId
deriving DecidableEq, Repr

/-- `createAlertMessage('Please fix the errors...', 'error')`. -/
def summaryBanner : Banner :=
  ⟨.error, "Please fix the errors in the form and try again."⟩

/-- `createAlertMessage('Thanks! Your message...', 'success')`. -/
def successBanner : Banner :=
  ⟨.success, "Thanks! Your message has been sent. We will reply within 24 hours."⟩

/-- `nameEl ? nameEl.value.trim() : ''` (and likewise for the two other
controls). -/
def valOf (o : Option String) : String :=
  match o with
  | some v => jsTrim v
  | none => ""

/-- The error list built on `script.js` lines 182-201, in the fixed order
name, email, message; an entry's field is `none` when the corresponding
element is absent from the form. -/
def errorsOf (f : ContactForm) : List (Option FieldId × String) :=
  (if (valOf f.nameVal).length < 2 then
    [(f.nameVal.map fun _ => FieldId.name, "Please enter your name (2+ characters).")]
  else []) ++
  (if !emailAccepts (valOf f.emailVal) then
    [(f.emailVal.map fun _ => FieldId.email, "Please enter a valid email address.")]
  else []) ++
  (if (valOf f.messageVal).length < 10 then
    [(f.messageVal.map fun _ => FieldId.message, "Please enter a message (10+ characters).")]
  else [])

/-- `clearFormAlerts`: remove every `.form-alert` node and every
`input-error` class (rendered `.field-error` nodes are not removed). -/
def clearFormAlerts (f : ContactForm) : ContactForm :=
  { f with banners := [], errorClasses := [] }

/-- What the submit handler did besides mutating the form. -/
structure SubmitOutcome where
  form : ContactForm
  /-- the field `field.focus()` was called on, if any -/
  focusReq : Option FieldId
  /-- delay (ms) of the `setTimeout` scheduled by the valid branch -/
  sendTimer : Option ℕ
deriving DecidableEq, Repr

/-- The `submit` listener (`script.js` lines 172-248): `preventDefault`,
clear alerts, validate; on errors render the inline errors (skipping
absent fields), focus the field of the first error entry when it exists,
insert the summary banner at the top, and return; otherwise disable the
submit button, set its label to `'Sending...'`, and schedule the 900 ms
simulated send. -/
def submitHandler (f : ContactForm) : SubmitOutcome :=
  let f1 := clearFormAlerts f
  -- the error list reads only the control values, which `clearFormAlerts`
  -- does not touch: `errorsOf f1 = errorsOf f` definitionally
  let errs := errorsOf f
  if errs.isEmpty then
    let f2 :=
      match f1.submitBtn with
      | some _ => { f1 with submitBtn := some ⟨"Sending...", true⟩ }
      | none => f1
    ⟨f2, none, some 900⟩
  else
    let f2 :=
      { f1 with
        errorClasses := f1.errorClasses ++ errs.filterMap (fun p => p.1)
        inlineErrors :=
          f1.inlineErrors ++ errs.filterMap (fun p => p.1.map (fun fl => (fl, p.2)))
        banners := summaryBanner :: f1.banners }
    ⟨f2, errs.head?.bind (fun p => p.1), none⟩

/-- `contactForm.reset()`: every present control returns to its default
value; the contact form's controls carry no `value` attribute, so the
defaults are empty. -/
def formReset (f : ContactForm) : ContactForm :=
  { f with
    nameVal := f.nameVal.map fun _ => ""
    emailVal := f.emailVal.map fun _ => ""
    messageVal := f.messageVal.map fun _ => "" }

/-- Result of the 900 ms callback. -/
structure SendOutcome where
  form : ContactForm
  /-- delay (ms) of the banner-removal `setTimeout` -/
  removeTimer : Option ℕ
deriving DecidableEq, Repr

/-- The 900 ms `setTimeout` callback (`script.js` lines 231-247): insert
the success banner at the top, reset the form, re-enable the submit button
with label `'Send Inquiry'`, and schedule the 8000 ms banner removal. -/
def sendTimerFire (f : ContactForm) : SendOutcome :=
  let f1 := formReset { f with banners := successBanner :: f.banners }
  let f2 :=
    match f1.submitBtn with
    | some _ => { f1 with submitBtn := some ⟨"Send Inquiry", false⟩ }
    | none => f1
  ⟨f2, some 8000⟩

/-- The 8000 ms `setTimeout` callback (`success.remove()`): remove the
success banner inserted by the send callback. -/
def removeSuccessFire (f : ContactForm) : ContactForm :=
  { f with banners := f.banners.erase successBanner }

/-! Claim-side vocabulary for the form. -/

/-- The fields whose validator fails, in the fixed validation order
name, email, message. -/
def failingFields (f : ContactForm) : List FieldId :=
  (if (valOf f.nameVal).length < 2 then [FieldId.name] else []) ++
  (if !emailAccepts (valOf f.emailVal) then [FieldId.email] else []) ++
  (if (valOf f.messageVal).length < 10 then [FieldId.message] else [])

/-- The inline message rendered for each failing field. -/
def errorMsgOf : FieldId → String
  | .name => "Please enter your name (2+ characters)."
  | .email => "Please enter a valid email address."
  | .message => "Please enter a message (10+ characters)."

/-! ## Theorems -/

/-- Each single menu transition preserves the agreement of class,
attribute and glyph. -/
theorem menuSync_step (s : MenuState) (e : MenuEvent) (h : menuSync s) :
    menuSync (menuStep s e) := by
  obtain ⟨h1, h2⟩ := h
  cases e with
  | toggleClick =>
    by_cases ha : s.active = true
    · have har : s.ariaExpanded = "true" := h1.mp ha
      simp [menuStep, menuSync, ha, har]
    · have har : ¬s.ariaExpanded = "true" := fun hh => ha (h1.mpr hh)
      have ha' : s.active = false := by simpa using ha
      simp [menuStep, menuSync, ha', har]
  | navLinkClick =>
    by_cases ha : s.active = true
    · simp [menuStep, menuSync, ha]
    · have ha' : s.active = false := by simpa using ha
      simpa [menuStep, ha'] using ⟨h1, h2⟩
  | escapeKey =>
    by_cases ha : s.active = true
    · simp [menuStep, menuSync, ha]
    · have ha' : s.active = false := by simpa using ha
      simpa [menuStep, ha'] using ⟨h1, h2⟩

/-- C6: starting from the closed menu state, every sequence of mobile-menu
transitions (toggle clicks, nav-link clicks while open, Escape while open)
keeps the nav container's `active` class, the toggle's `aria-expanded`
attribute and the toggle glyph in sync: `active` iff `aria-expanded =
"true"` iff glyph `✕`. -/
theorem c6_menu_state_sync (evs : List MenuEvent) :
    menuSync (evs.foldl menuStep closedMenu) := by
  have h : ∀ s, menuSync s → menuSync (evs.foldl menuStep s) := by
    induction evs with
    | nil => exact fun s hs => hs
    | cons e rest ih => exact fun s hs => ih _ (menuSync_step s e hs)
  exact h closedMenu (by constructor <;> simp [closedMenu])

/-- C7: two consecutive toggle-button clicks from the closed menu state
return the menu to exactly the closed state (same class, attribute and
glyph). -/
theorem c7_toggle_involution :
    menuStep (menuStep closedMenu .toggleClick) .toggleClick = closedMenu := by
  decide

/-- C8: whenever the scroll handler runs with the header present, the
header carries the sticky class afterwards iff the vertical scroll offset
exceeds 48. -/
theorem c8_sticky_iff (y : ℚ) (prev : Bool) :
    onScroll (some prev) y = some true ↔ y > 48 := by
  simp [onScroll, STICKY_OFFSET]

/-- C5: for a click on an in-page anchor link the handler is attached to
(href starts with `#`, is not bare `#`, no opt-out flag), if the target id
resolves, the destination offset is `max 0 (targetTop - headerHeight -
18)`; if it does not resolve the click is left to native behavior. -/
theorem c5_smooth_scroll (l : AnchorLink) (headerHeight : Option ℚ) (t : ℚ)
    (hatt : smoothScrollAttached l = true) :
    anchorClick l headerHeight (some t) =
      .intercepted (max 0 (t - getHeaderOffset headerHeight - 18)) ∧
    anchorClick l headerHeight none = .native := by
  constructor <;> simp [anchorClick, hatt]

/-- Witness for C5 at a concrete link, header height 60 and target top 100. -/
theorem c5_smooth_scroll_witness :
    anchorClick ⟨some "#about", false⟩ (some 60) (some 100) =
      .intercepted (max 0 (100 - getHeaderOffset (some 60) - 18)) ∧
    anchorClick ⟨some "#about", false⟩ (some 60) none = .native :=
  c5_smooth_scroll ⟨some "#about", false⟩ (some 60) 100 (by decide)

/-- C4: a counter that completes its animation shows the target with
`en-US` digit grouping when the sanitized target string has no decimal
point (`data-target="15000"` ends as `"15,000"`) and as two-decimal
fixed-point when it has one (`data-target="12.5"` ends as `"12.50"`); a
missing or non-numeric target is treated as `0`. -/
theorem c4_counter_final_text :
    counterFinalText (some "15000") "0" = "15,000" ∧
    counterFinalText (some "12.5") "0" = "12.50" ∧
    counterFinalText none "" = "0" ∧
    (∀ attr? text,
      parseFloatSan (sanitizeTarget (counterRaw attr? text)).data = none →
        counterTarget attr? text = 0) := by
  refine ⟨by decide, by decide, by decide, fun attr? text h => ?_⟩
  simp [counterTarget, counterTargetDec, h, DecNum.toRat]

/-- Witness for C4: the non-numeric target `"abc"` is treated as `0`. -/
theorem c4_counter_final_text_witness :
    counterFinalText (some "15000") "0" = "15,000" ∧
    counterTarget (some "abc") "x" = 0 :=
  ⟨c4_counter_final_text.1, c4_counter_final_text.2.2.2 (some "abc") "x" (by decide)⟩

/-! ### The email regex: characterization and the C3 claim -/

/-- Two booleans agreeing as propositions are equal. -/
theorem bool_eq_of_iff {a b : Bool} (h : a = true ↔ b = true) : a = b := by
  cases a <;> cases b <;> simp_all

/-- `splits` enumerates exactly the two-part decompositions. -/
theorem splits_mem (cs : List Char) :
    ∀ a b : List Char, (a, b) ∈ splits cs ↔ a ++ b = cs := by
  induction cs with
  | nil => intro a b; simp [splits]
  | cons c cs ih =>
    intro a b
    cases a with
    | nil => simp [splits]
    | cons a0 a' =>
      simp [splits, ih, eq_comm]
      exact and_comm

/-- Searching all split points of `cs` succeeds iff some decomposition
satisfies the predicate. -/
theorem any_splits (cs : List Char) (P : List Char × List Char → Bool) :
    (splits cs).any P = true ↔ ∃ a b, a ++ b = cs ∧ P (a, b) = true := by
  rw [List.any_eq_true]
  constructor
  · rintro ⟨⟨a, b⟩, hmem, hP⟩
    exact ⟨a, b, (splits_mem cs a b).mp hmem, hP⟩
  · rintro ⟨a, b, hab, hP⟩
    exact ⟨(a, b), (splits_mem cs a b).mpr hab, hP⟩

/-- `plusOk` unfolded to propositions. -/
theorem plusOk_iff (l : List Char) :
    plusOk l = true ↔ l ≠ [] ∧ ∀ x ∈ l, okChar x = true := by
  simp [plusOk, List.all_eq_true]

/-- `okChar` unfolded to propositions. -/
theorem okChar_spec (c : Char) :
    okChar c = true ↔ isJsSpace c = false ∧ c ≠ '@' := by
  simp [okChar]

/-- A nonempty sublist of a whitespace-free list avoiding `'@'` is a valid
`[^\s@]+` run. -/
theorem plusOk_of_subset (l cs : List Char) (hne : l ≠ [])
    (hsub : ∀ z ∈ l, z ∈ cs)
    (hsp : ∀ z ∈ cs, isJsSpace z = false)
    (hat : '@' ∉ l) : plusOk l = true := by
  refine (plusOk_iff l).mpr ⟨hne, fun z hz => ?_⟩
  refine (okChar_spec z).mpr ⟨hsp z (hsub z hz), fun h0 => ?_⟩
  exact hat (h0 ▸ hz)

/-- `dotThen` holds exactly on `'.' :: c` with `c` a valid run. -/
theorem dotThen_iff (r : List Char) :
    dotThen r = true ↔ ∃ c, r = '.' :: c ∧ plusOk c = true := by
  cases r with
  | nil => simp [dotThen]
  | cons r0 rr =>
    simp only [dotThen, Bool.and_eq_true, decide_eq_true_eq, List.cons.injEq]
    constructor
    · rintro ⟨h0, hp⟩
      exact ⟨rr, ⟨h0, rfl⟩, hp⟩
    · rintro ⟨c, ⟨h0, hc⟩, hp⟩
      refine ⟨h0, ?_⟩
      rw [hc]
      exact hp

/-- `domainMatch` holds exactly on `b ++ '.' :: c` with valid runs. -/
theorem domainMatch_iff (cs : List Char) :
    domainMatch cs = true ↔
      ∃ b c, cs = b ++ '.' :: c ∧ plusOk b = true ∧ plusOk c = true := by
  rw [domainMatch, any_splits]
  constructor
  · rintro ⟨b, r, hbr, hP⟩
    rw [Bool.and_eq_true] at hP
    obtain ⟨hb, hd⟩ := hP
    obtain ⟨c, hc, hpc⟩ := (dotThen_iff r).mp hd
    exact ⟨b, c, by rw [← hbr, hc], hb, hpc⟩
  · rintro ⟨b, c, hceq, hb, hc⟩
    refine ⟨b, '.' :: c, hceq.symm, ?_⟩
    rw [Bool.and_eq_true]
    exact ⟨hb, (dotThen_iff _).mpr ⟨c, rfl, hc⟩⟩

/-- The regex matches exactly the strings `a ++ "@" ++ b ++ "." ++ c`
with `a`, `b`, `c` nonempty `[^\s@]` runs. -/
theorem emailReTest_iff (s : String) :
    emailReTest s = true ↔
      ∃ a b c, s.data = a ++ '@' :: (b ++ '.' :: c) ∧
        plusOk a = true ∧ plusOk b = true ∧ plusOk c = true := by
  rw [emailReTest, any_splits]
  constructor
  · rintro ⟨a, r, har, hP⟩
    rw [Bool.and_eq_true] at hP
    obtain ⟨ha, hat⟩ := hP
    cases r with
    | nil => simp [atThen] at hat
    | cons r0 rest =>
      simp only [atThen, Bool.and_eq_true, decide_eq_true_eq] at hat
      obtain ⟨hr0, hdm⟩ := hat
      obtain ⟨b, c, hrest, hb, hc⟩ := (domainMatch_iff rest).mp hdm
      subst hr0
      exact ⟨a, b, c, by rw [← har, hrest], ha, hb, hc⟩
  · rintro ⟨a, b, c, hdecomp, ha, hb, hc⟩
    refine ⟨a, '@' :: (b ++ '.' :: c), hdecomp.symm, ?_⟩
    rw [Bool.and_eq_true]
    refine ⟨ha, ?_⟩
    simp only [atThen, Bool.and_eq_true, decide_eq_true_eq]
    exact ⟨by simp, (domainMatch_iff _).mpr ⟨b, c, rfl, hb, hc⟩⟩

/-- `hasDotNotLast` finds exactly the dots followed by something. -/
theorem hasDotNotLast_iff (l : List Char) :
    hasDotNotLast l = true ↔ ∃ x y, l = x ++ '.' :: y ∧ y ≠ [] := by
  induction l with
  | nil => simp [hasDotNotLast]
  | cons c rest ih =>
    cases rest with
    | nil =>
      constructor
      · intro h
        exact absurd h (by simp [hasDotNotLast])
      · rintro ⟨x, y, hxy, hy⟩
        rcases x with _ | ⟨x0, x'⟩
        · simp only [List.nil_append, List.cons.injEq] at hxy
          exact absurd hxy.2.symm hy
        · simp only [List.cons_append, List.cons.injEq] at hxy
          exact absurd hxy.2.symm (by simp)
    | cons c2 rest2 =>
      simp only [hasDotNotLast, Bool.or_eq_true, decide_eq_true_eq]
      constructor
      · rintro (hdot | htail)
        · exact ⟨[], c2 :: rest2, by simp [hdot], by simp⟩
        · obtain ⟨x, y, hxy, hy⟩ := ih.mp htail
          exact ⟨c :: x, y, by rw [List.cons_append, hxy], hy⟩
      · rintro ⟨x, y, hxy, hy⟩
        rcases x with _ | ⟨x0, x'⟩
        · simp only [List.nil_append, List.cons.injEq] at hxy
          exact Or.inl hxy.1
        · simp only [List.cons_append, List.cons.injEq] at hxy
          exact Or.inr (ih.mpr ⟨x', y, hxy.2, hy⟩)

/-- A list counting one `'@'` splits around it. -/
theorem count_one_split (cs : List Char) (h : cs.count '@' = 1) :
    ∃ a d, cs = a ++ '@' :: d ∧ '@' ∉ a ∧ '@' ∉ d := by
  induction cs with
  | nil => simp at h
  | cons c cs ih =>
    rw [List.count_cons] at h
    by_cases hc : c = '@'
    · subst hc
      simp at h
      exact ⟨[], cs, rfl, by simp, List.count_eq_zero.mp (by omega)⟩
    · have hbeq : (c == '@') = false := by simp [hc]
      rw [hbeq] at h
      simp only [if_neg Bool.false_ne_true, Nat.add_zero] at h
      obtain ⟨a, d, hcs, ha, hd⟩ := ih h
      refine ⟨c :: a, d, by rw [hcs, List.cons_append], ?_, hd⟩
      simp only [List.mem_cons, not_or]
      exact ⟨fun hh => hc hh.symm, ha⟩

/-- Conversely, a split around one `'@'` counts exactly one. -/
theorem count_append_one (a d : List Char) (ha : '@' ∉ a) (hd : '@' ∉ d) :
    (a ++ '@' :: d).count '@' = 1 := by
  rw [List.count_append, List.count_cons]
  rw [List.count_eq_zero.mpr ha, List.count_eq_zero.mpr hd]
  simp

/-- The part after the `'@'` of a split string is the second component. -/
theorem afterAt_append (a d : List Char) :
    '@' ∉ a → afterAt (a ++ '@' :: d) = d := by
  induction a with
  | nil => intro _; simp [afterAt, List.dropWhile_cons]
  | cons a0 a' ih =>
    intro ha
    have h0 : a0 ≠ '@' := fun h => ha (by simp [h])
    have ha' : '@' ∉ a' := fun h => ha (by simp [h])
    simpa [afterAt, List.cons_append, List.dropWhile_cons, h0] using ih ha'

/-- C3 (amended): the email validator accepts a trimmed value iff it has
no whitespace, contains exactly one `'@'` which is not the first
character, and the part after the `'@'` contains a `'.'` that is neither
its first nor its last character. -/
theorem c3_email_validator_amended (t : String) :
    emailAccepts t = specEmailAmended t := by
  apply bool_eq_of_iff
  constructor
  · intro h
    rw [emailAccepts, Bool.and_eq_true] at h
    obtain ⟨_, hre⟩ := h
    obtain ⟨a, b, c, hdec, hpa, hpb, hpc⟩ := (emailReTest_iff t).mp hre
    obtain ⟨hane, haok⟩ := (plusOk_iff a).mp hpa
    obtain ⟨hbne, hbok⟩ := (plusOk_iff b).mp hpb
    obtain ⟨hcne, hcok⟩ := (plusOk_iff c).mp hpc
    have hnotA : ∀ l : List Char, (∀ x ∈ l, okChar x = true) → '@' ∉ l := by
      intro l hl hmem
      exact ((okChar_spec '@').mp (hl _ hmem)).2 rfl
    have haA : '@' ∉ a := hnotA a haok
    have hdA : '@' ∉ b ++ '.' :: c := by
      intro hmem
      rcases List.mem_append.mp hmem with hmb | hmc
      · exact hnotA b hbok hmb
      · rcases List.mem_cons.mp hmc with heq | hmc2
        · exact absurd heq (by decide)
        · exact hnotA c hcok hmc2
    simp only [specEmailAmended, Bool.and_eq_true, decide_eq_true_eq]
    refine ⟨⟨⟨?_, ?_⟩, ?_⟩, ?_⟩
    · rw [List.all_eq_true]
      intro z hz
      rw [hdec] at hz
      simp only [List.mem_append, List.mem_cons] at hz
      rcases hz with hza | hzat | hzb | hzdot | hzc
      · simpa using ((okChar_spec z).mp (haok z hza)).1
      · subst hzat; decide
      · simpa using ((okChar_spec z).mp (hbok z hzb)).1
      · subst hzdot; decide
      · simpa using ((okChar_spec z).mp (hcok z hzc)).1
    · rw [hdec]
      exact count_append_one a (b ++ '.' :: c) haA hdA
    · rw [hdec]
      rcases a with _ | ⟨a0, a'⟩
      · exact absurd rfl hane
      · simp only [List.cons_append, List.head?_cons, ne_eq, Option.some.injEq]
        intro h0
        exact ((okChar_spec a0).mp (haok a0 (by simp))).2 h0
    · rw [hdec, afterAt_append a (b ++ '.' :: c) haA]
      rcases b with _ | ⟨b0, b'⟩
      · exact absurd rfl hbne
      · simp only [List.cons_append, hasInteriorDot]
        exact (hasDotNotLast_iff _).mpr ⟨b', c, rfl, hcne⟩
  · intro h
    simp only [specEmailAmended, Bool.and_eq_true, decide_eq_true_eq] at h
    obtain ⟨⟨⟨hall, hcnt⟩, hhead⟩, hdot⟩ := h
    obtain ⟨a, d, hcs, haA, hdA⟩ := count_one_split t.data hcnt
    have hane : a ≠ [] := by
      intro h0
      subst h0
      rw [hcs] at hhead
      simp at hhead
    rw [hcs, afterAt_append a d haA] at hdot
    cases hd0 : d with
    | nil =>
      rw [hd0] at hdot
      simp [hasInteriorDot] at hdot
    | cons d0 rest =>
      rw [hd0] at hdot
      simp only [hasInteriorDot] at hdot
      obtain ⟨x, y, hrest, hyne⟩ := (hasDotNotLast_iff rest).mp hdot
      have hdfull : d = (d0 :: x) ++ '.' :: y := by
        rw [hd0, hrest]
        simp
      have hsp : ∀ z ∈ t.data, isJsSpace z = false := by
        rw [List.all_eq_true] at hall
        intro z hz
        simpa using hall z hz
      have hpa : plusOk a = true := by
        refine plusOk_of_subset a t.data hane ?_ hsp haA
        intro z hz
        rw [hcs]
        exact List.mem_append_left _ hz
      have hsubd : ∀ z ∈ d, z ∈ t.data := by
        intro z hz
        rw [hcs]
        exact List.mem_append_right _ (List.mem_cons_of_mem _ hz)
      have hpb : plusOk (d0 :: x) = true := by
        refine plusOk_of_subset (d0 :: x) t.data (by simp) ?_ hsp ?_
        · intro z hz
          exact hsubd z (by rw [hdfull]; exact List.mem_append_left _ hz)
        · intro hmem
          exact hdA (by rw [hdfull]; exact List.mem_append_left _ hmem)
      have hpc : plusOk y = true := by
        refine plusOk_of_subset y t.data ?_ ?_ hsp ?_
        · intro h0
          exact hyne h0
        · intro z hz
          exact hsubd z (by
            rw [hdfull]
            exact List.mem_append_right _ (List.mem_cons_of_mem _ hz))
        · intro hmem
          exact hdA (by
            rw [hdfull]
            exact List.mem_append_right _ (List.mem_cons_of_mem _ hmem))
      rw [emailAccepts, Bool.and_eq_true]
      constructor
      · rw [hcs]
        simp
      · refine (emailReTest_iff t).mpr ⟨a, d0 :: x, y, ?_, hpa, hpb, hpc⟩
        rw [hcs, hdfull]

/-- Counterexample to C3 as stated: `"a@.c"` and `"@b.c"` are non-empty,
contain exactly one `'@'`, a `'.'` after it, and no whitespace — the
claim's conditions — yet the validator rejects both. -/
theorem c3_email_validator_counterexample :
    specEmailClaim "a@.c" = true ∧ emailAccepts "a@.c" = false ∧
    specEmailClaim "@b.c" = true ∧ emailAccepts "@b.c" = false := by
  decide

/-! ### Contact form -/

/-- On a fully valid form, the submit handler disables the button, shows
the sending label, and schedules only the 900 ms timer. -/
theorem submitHandler_valid (f : ContactForm) (b : SubmitButton)
    (hb : f.submitBtn = some b)
    (hn : 2 ≤ (valOf f.nameVal).length)
    (he : emailAccepts (valOf f.emailVal) = true)
    (hm : 10 ≤ (valOf f.messageVal).length) :
    submitHandler f =
      ⟨{ f with
          banners := []
          errorClasses := []
          submitBtn := some ⟨"Sending...", true⟩ }, none, some 900⟩ := by
  have h1 : ¬(valOf f.nameVal).length < 2 := by omega
  have h3 : ¬(valOf f.messageVal).length < 10 := by omega
  have hemp : errorsOf f = [] := by
    simp [errorsOf, h1, h3, he]
  simp [submitHandler, hemp, clearFormAlerts, hb]

/-- On an invalid form, the submit handler renders exactly the error
classes and inline nodes of the failing fields that exist, requests focus
on the first error entry's field, inserts the summary banner alone at the
top, and schedules nothing. -/
theorem submitHandler_invalid (f : ContactForm) (hne : errorsOf f ≠ []) :
    submitHandler f =
      ⟨{ f with
          errorClasses := (errorsOf f).filterMap (fun p => p.1)
          inlineErrors :=
            f.inlineErrors ++ (errorsOf f).filterMap (fun p => p.1.map fun fl => (fl, p.2))
          banners := [summaryBanner] },
        (errorsOf f).head?.bind (fun p => p.1), none⟩ := by
  have hemp : (errorsOf f).isEmpty = false := by
    cases hc : errorsOf f with
    | nil => exact absurd hc hne
    | cons p rest => rfl
  simp [submitHandler, hemp, clearFormAlerts]

/-- Extracting the present fields from a rendered error list built over
`some` fields gives the fields back. -/
theorem filterMap_fst_of_map_some (L : List FieldId) (msg : FieldId → String) :
    (L.map fun fl => ((some fl : Option FieldId), msg fl)).filterMap
      (fun p => p.1) = L := by
  induction L with
  | nil => rfl
  | cons a l ih => simp [ih]

/-- Rendering the inline nodes of an error list built over `some` fields
pairs each field with its message. -/
theorem filterMap_inline_of_map_some (L : List FieldId) (msg : FieldId → String) :
    (L.map fun fl => ((some fl : Option FieldId), msg fl)).filterMap
      (fun p => p.1.map fun fl => (fl, p.2)) = L.map fun fl => (fl, msg fl) := by
  induction L with
  | nil => rfl
  | cons a l ih => simp [ih]

/-- With all three field elements present, the error list is the failing
fields in order, each with its message. -/
theorem errorsOf_all_present (f : ContactForm) (nv ev mv : String)
    (hnv : f.nameVal = some nv) (hev : f.emailVal = some ev)
    (hmv : f.messageVal = some mv) :
    errorsOf f = (failingFields f).map fun fl => (some fl, errorMsgOf fl) := by
  simp only [errorsOf, failingFields, hnv, hev, hmv, Option.map_some]
  split_ifs <;> simp [errorMsgOf]

/-- C1: on a submission where some validator fails (all three field
elements being present in the form), all three validators are reflected in
order in the outcome: the failing fields, in the fixed order name, email,
message, each carry the `input-error` class and an inline error node;
focus goes to the first failing field; a single error summary banner sits
at the top; no timer is scheduled and the submit button is untouched. -/
theorem c1_invalid_submission (f : ContactForm) (nv ev mv : String)
    (hnv : f.nameVal = some nv) (hev : f.emailVal = some ev)
    (hmv : f.messageVal = some mv)
    (hfail : failingFields f ≠ []) :
    (submitHandler f).form.errorClasses = failingFields f ∧
    (submitHandler f).form.inlineErrors =
      f.inlineErrors ++ (failingFields f).map (fun fl => (fl, errorMsgOf fl)) ∧
    (submitHandler f).focusReq = (failingFields f).head? ∧
    (submitHandler f).form.banners = [summaryBanner] ∧
    (submitHandler f).sendTimer = none ∧
    (submitHandler f).form.submitBtn = f.submitBtn := by
  have herr := errorsOf_all_present f nv ev mv hnv hev hmv
  have hne : errorsOf f ≠ [] := by
    rw [herr]
    simpa using hfail
  rw [submitHandler_invalid f hne]
  obtain ⟨fl0, rest, hL⟩ := List.exists_cons_of_ne_nil hfail
  refine ⟨?_, ?_, ?_, rfl, rfl, rfl⟩
  · rw [herr, filterMap_fst_of_map_some]
  · rw [herr, filterMap_inline_of_map_some]
  · rw [herr, hL]
    simp

/-- Witness for C1: the spec's example `name="A"`, `email="bad"`,
`message="short"` fails all three validators, focuses the name field,
shows the summary banner and schedules nothing. -/
theorem c1_invalid_submission_witness :
    (submitHandler
        ⟨some "A", some "bad", some "short", some ⟨"Send Inquiry", false⟩,
          [], [], []⟩).focusReq =
      (failingFields
        ⟨some "A", some "bad", some "short", some ⟨"Send Inquiry", false⟩,
          [], [], []⟩).head? ∧
    (submitHandler
        ⟨some "A", some "bad", some "short", some ⟨"Send Inquiry", false⟩,
          [], [], []⟩).sendTimer = none :=
  ⟨(c1_invalid_submission _ "A" "bad" "short" rfl rfl rfl (by decide)).2.2.1,
   (c1_invalid_submission _ "A" "bad" "short" rfl rfl rfl (by decide)).2.2.2.2.1⟩

/-- C2: on a submission where all three validators pass, the handler
disables the submit button with label `Sending...` and schedules a 900 ms
timer; the 900 ms callback puts the success banner at the top, resets the
form fields, re-enables the button, and schedules an 8000 ms removal; the
8000 ms callback removes the success banner. -/
theorem c2_valid_submission (f : ContactForm) (b : SubmitButton)
    (hb : f.submitBtn = some b)
    (hn : 2 ≤ (valOf f.nameVal).length)
    (he : emailAccepts (valOf f.emailVal) = true)
    (hm : 10 ≤ (valOf f.messageVal).length) :
    (submitHandler f).form.submitBtn = some ⟨"Sending...", true⟩ ∧
    (submitHandler f).sendTimer = some 900 ∧
    (submitHandler f).form.banners = [] ∧
    (sendTimerFire (submitHandler f).form).form.banners = [successBanner] ∧
    (sendTimerFire (submitHandler f).form).form.nameVal = f.nameVal.map (fun _ => "") ∧
    (sendTimerFire (submitHandler f).form).form.emailVal = f.emailVal.map (fun _ => "") ∧
    (sendTimerFire (submitHandler f).form).form.messageVal = f.messageVal.map (fun _ => "") ∧
    (sendTimerFire (submitHandler f).form).form.submitBtn = some ⟨"Send Inquiry", false⟩ ∧
    (sendTimerFire (submitHandler f).form).removeTimer = some 8000 ∧
    (removeSuccessFire (sendTimerFire (submitHandler f).form).form).banners = [] := by
  rw [submitHandler_valid f b hb hn he hm]
  simp [sendTimerFire, formReset, removeSuccessFire]

/-- Witness for C2: the spec's example valid submission. -/
theorem c2_valid_submission_witness :
    (submitHandler
        ⟨some "Jane Doe", some "jane@example.com",
          some "Hello, this is a real inquiry.", some ⟨"Send Inquiry", false⟩,
          [], [], []⟩).sendTimer = some 900 ∧
    (sendTimerFire
        (submitHandler
          ⟨some "Jane Doe", some "jane@example.com",
            some "Hello, this is a real inquiry.", some ⟨"Send Inquiry", false⟩,
            [], [], []⟩).form).removeTimer = some 8000 :=
  ⟨(c2_valid_submission _ _ rfl (by decide) (by decide) (by decide)).2.1,
   (c2_valid_submission _ _ rfl (by decide) (by decide) (by decide)).2.2.2.2.2.2.2.2.1⟩

/-- C9: after a successful simulated send the submit button's label is the
fixed string `Send Inquiry`, whatever it was before submission; any button
whose original label differs is permanently relabelled. -/
theorem c9_label_not_restored (f : ContactForm) (b : SubmitButton)
    (hb : f.submitBtn = some b)
    (hn : 2 ≤ (valOf f.nameVal).length)
    (he : emailAccepts (valOf f.emailVal) = true)
    (hm : 10 ≤ (valOf f.messageVal).length) :
    (sendTimerFire (submitHandler f).form).form.submitBtn =
      some ⟨"Send Inquiry", false⟩ ∧
    (b.label ≠ "Send Inquiry" →
      (sendTimerFire (submitHandler f).form).form.submitBtn ≠ some b) := by
  rw [submitHandler_valid f b hb hn he hm]
  refine ⟨by simp [sendTimerFire, formReset], ?_⟩
  intro hdiff heq
  simp [sendTimerFire, formReset] at heq
  exact hdiff (by rw [← heq])

/-- Witness for C9: a button labelled `SUBMIT NOW` ends labelled
`Send Inquiry`. -/
theorem c9_label_not_restored_witness :
    (sendTimerFire
        (submitHandler
          ⟨some "Jane Doe", some "jane@example.com",
            some "Hello, this is a real inquiry.", some ⟨"SUBMIT NOW", false⟩,
            [], [], []⟩).form).form.submitBtn = some ⟨"Send Inquiry", false⟩ ∧
    (sendTimerFire
        (submitHandler
          ⟨some "Jane Doe", some "jane@example.com",
            some "Hello, this is a real inquiry.", some ⟨"SUBMIT NOW", false⟩,
            [], [], []⟩).form).form.submitBtn ≠ some ⟨"SUBMIT NOW", false⟩ :=
  ⟨(c9_label_not_restored _ _ rfl (by decide) (by decide) (by decide)).1,
   (c9_label_not_restored _ _ rfl (by decide) (by decide) (by decide)).2 (by decide)⟩

/-- C10: when the name element is missing, its validator still fails (the
value reads as empty), the first error entry has no field, so no focus
call is made at all, while every error entry whose field exists still gets
its `input-error` class and inline node; the handler is a total function,
so no exception is raised. -/
theorem c10_missing_first_field (f : ContactForm) (h : f.nameVal = none) :
    (submitHandler f).focusReq = none ∧
    ∀ p ∈ errorsOf f, ∀ fl, p.1 = some fl →
      fl ∈ (submitHandler f).form.errorClasses ∧
      (fl, p.2) ∈ (submitHandler f).form.inlineErrors := by
  have hhead : errorsOf f =
      (none, "Please enter your name (2+ characters).") ::
        ((if !emailAccepts (valOf f.emailVal) then
            [(f.emailVal.map fun _ => FieldId.email,
              "Please enter a valid email address.")]
          else []) ++
          (if (valOf f.messageVal).length < 10 then
            [(f.messageVal.map fun _ => FieldId.message,
              "Please enter a message (10+ characters).")]
          else [])) := by
    simp [errorsOf, h, valOf]
  have hne : errorsOf f ≠ [] := by
    rw [hhead]
    simp
  rw [submitHandler_invalid f hne]
  refine ⟨by rw [hhead]; rfl, ?_⟩
  intro p hp fl hfl
  constructor
  · exact List.mem_filterMap.mpr ⟨p, hp, hfl⟩
  · exact List.mem_append_right _
      (List.mem_filterMap.mpr ⟨p, hp, by rw [hfl]; rfl⟩)

/-- Witness for C10: name element missing, `email="bad"`,
`message="short"`: no focus request, and the email field still renders its
error. -/
theorem c10_missing_first_field_witness :
    (submitHandler ⟨none, some "bad", some "short", none, [], [], []⟩).focusReq =
      none ∧
    FieldId.email ∈
      (submitHandler ⟨none, some "bad", some "short", none, [], [], []⟩).form.errorClasses :=
  ⟨(c10_missing_first_field _ rfl).1,
   ((c10_missing_first_field _ rfl).2
      (some FieldId.email, "Please enter a valid email address.") (by decide)
      FieldId.email rfl).1⟩

end Script
